import Mathlib

/-!
# A verification development of the go-osc message codec

This file gives a shallow embedding of `message.go` (and the packet/bundle
reading half of the package) from the `go-osc` repository, together with
theorems settling the frozen specification claims about it.

Modelling conventions:
* Go byte strings and byte slices are `List Nat` with entries below 256 where
  it matters; the codec never depends on the bound except through `% 256`.
* Go machine integers are `Nat`/`Int`; `int32` values read from the wire are
  represented by `int32OfBytes` (two's complement of the big-endian word).
* `int32`, `int64`, `float32`, `float64` and `Timetag` *payloads* are
  represented by their big-endian bit patterns (a `Nat` below `2^32`/`2^64`).
  The codec treats these payloads as opaque words (`binary.Write`/`binary.Read`
  with big-endian byte order), so bit patterns are exactly the information the
  wire carries; equality of arguments is bit-for-bit equality, the convention
  the specification fixes for float payloads.
* The `bufio.Reader` threaded through the Go decoder is modelled by the list
  of remaining input bytes.  This is the fully-buffered regime: for a packet
  decoded from memory (at most the 4096-byte `bufio` buffer) every byte of the
  remaining input is buffered, so `reader.Buffered()` equals the number of
  remaining bytes.  `BufReader` below additionally models a partially
  buffered reader for the one claim where the distinction matters.
* Fallible operations return `Except DecodeErr`; each distinct error produced
  by the Go code gets its own constructor.
-/

/-- Distinct decode failures of the Go code.  `fuelExhausted` is an artifact
of modelling the unbounded mutual recursion of `readPacket`/`readBundle` with
a fuel parameter; with sufficient fuel it is never returned. -/
inductive DecodeErr where
  | eof
  | invalidBlobLength (l : Int)
  | unsupportedTypeTagString (tags : List Nat)
  | unsupportedTypeTag (c : Nat)
  | invalidBundleTag (tag : List Nat)
  | invalidPacket
  | fuelExhausted
deriving DecidableEq, Repr

/-- Big-endian bytes of `v`, `k` bytes wide (the byte form produced by
`binary.Write` with big-endian order; truncates like a Go integer
conversion). -/
def beBytes : Nat → Nat → List Nat
  | 0, _ => []
  | k + 1, v => beBytes k (v / 256) ++ [v % 256]

/-- Value of a big-endian byte string (as read by `binary.Read`). -/
def beVal (bs : List Nat) : Nat :=
  bs.foldl (fun acc b => acc * 256 + b) 0

/-- The signed `int32` denoted by a 4-byte big-endian word
(two's complement). -/
def int32OfBytes (bs : List Nat) : Int :=
  let v := beVal bs
  if v < 2 ^ 31 then (v : Int) else (v : Int) - 2 ^ 32

/-- `padBytesNeeded` from `message.go`: how many bytes are needed to fill up
to the next 4 byte length.  Go `%` on `int` is truncated remainder, which is
`Int.tmod`. -/
def padBytesNeeded (elementLen : Int) : Int :=
  (4 - elementLen.tmod 4).tmod 4

/-- `padBytesNeeded` applied to a (nonnegative) Go length. -/
def padNat (n : Nat) : Nat :=
  (padBytesNeeded (n : Int)).toNat

/-- Index of the first `0x00` byte, if any (`strings.Index(str, "\x00")` /
the scan done by `reader.ReadString(0)`). -/
def firstNullIdx : List Nat → Option Nat
  | [] => none
  | b :: bs => if b = 0 then some 0 else (firstNullIdx bs).map (· + 1)

/-- `writePaddedString` from `message.go`.  Returns the bytes appended to the
buffer and the byte count the function reports.  Note the Go guard is
`nullIndex > 0` with `nullIndex = -1` when no null is present: a string whose
*first* byte is null is not truncated. -/
def writePaddedString (str : List Nat) : List Nat × Nat :=
  let nullIndex : Int := match firstNullIdx str with
    | some i => (i : Int)
    | none => -1
  let str2 := if nullIndex > 0 then str.take nullIndex.toNat else str
  let n := str2.length + 1
  let numPadBytes := padNat n
  (str2 ++ 0 :: List.replicate numPadBytes 0, n + numPadBytes)

/-- `readPaddedString` from `message.go` over the remaining input.  Returns
the string without its terminator, the byte count reported (string, its
terminator and padding), and the remaining input.  The padding is removed by
a single `bufio` `Read`, which only errors when no byte at all is left. -/
def readPaddedString (input : List Nat) :
    Except DecodeErr (List Nat × Nat × List Nat) :=
  match firstNullIdx input with
  | none => .error .eof
  | some i =>
    let lenStr := i + 1
    let rest := input.drop lenStr
    let padLen := padNat lenStr
    if 0 < padLen then
      if rest.isEmpty then .error .eof
      else .ok (input.take i, lenStr + padLen, rest.drop padLen)
    else .ok (input.take i, lenStr, rest)

/-- `writeBlob` from `message.go`: 4-byte big-endian length (the Go
`int32(lenData)` conversion keeps the low 32 bits, which is what `beBytes 4`
produces), the data, then zero padding. -/
def writeBlob (data : List Nat) : List Nat × Nat :=
  let lenData := data.length
  let numPadBytes := padNat lenData
  (beBytes 4 lenData ++ data ++ List.replicate numPadBytes 0,
    4 + lenData + numPadBytes)

/-- `readBlob` from `message.go` in the fully-buffered regime, where
`reader.Buffered()` is the number of remaining input bytes.  Returns the
blob, the count `n` the function reports (a Go `int`), and the remaining
input. -/
def readBlob (input : List Nat) :
    Except DecodeErr (List Nat × Int × List Nat) :=
  if 4 ≤ input.length then
    let blobLen : Int := int32OfBytes (input.take 4)
    let input1 := input.drop 4
    let n : Int := 4 + blobLen
    if blobLen < 1 ∨ (input1.length : Int) < blobLen then
      .error (.invalidBlobLength blobLen)
    else
      let blob := input1.take blobLen.toNat
      let input2 := input1.drop blobLen.toNat
      let numPadBytes := padNat blobLen.toNat
      if 0 < numPadBytes then
        if input2.isEmpty then .error .eof
        else .ok (blob, n + numPadBytes, input2.drop numPadBytes)
      else .ok (blob, n, input2)
  else .error .eof

/-- A `bufio.Reader` mid-decode: the bytes currently sitting in its internal
buffer (`reader.Buffered()` is their count) and the bytes the underlying
reader still holds.  The true remaining input is `buffered ++ pending`. -/
structure BufReader where
  buffered : List Nat
  pending : List Nat
deriving DecidableEq, Repr

/-- One `bufio` `Read` call for `k` bytes: serve from the buffer when it is
nonempty; otherwise fill the buffer from the underlying reader (a
`bytes.Buffer` hands over everything it has) and serve from it.  Errors only
when no byte is available anywhere. -/
def BufReader.readOnce (r : BufReader) (k : Nat) :
    Option (List Nat × BufReader) :=
  if r.buffered.isEmpty then
    if r.pending.isEmpty then none
    else some (r.pending.take k, ⟨r.pending.drop k, []⟩)
  else some (r.buffered.take k, ⟨r.buffered.drop k, r.pending⟩)

/-- `io.ReadFull`: repeat `Read` until `k` bytes are gathered. -/
def BufReader.readFull (r : BufReader) (k fuel : Nat) :
    Option (List Nat × BufReader) :=
  match fuel with
  | 0 => none
  | f + 1 =>
    if k = 0 then some ([], r)
    else
      match r.readOnce k with
      | none => none
      | some (bs, r2) =>
        match r2.readFull (k - bs.length) f with
        | some (bs2, r3) => some (bs ++ bs2, r3)
        | none => none

/-- `readBlob` from `message.go` over an explicit `bufio` state.  This is the
same Go function as `readBlob` above, without the fully-buffered assumption:
the length bound is taken against `reader.Buffered()` — the bytes that happen
to be prefetched — exactly as the source writes it. -/
def readBlobBuf (r : BufReader) :
    Except DecodeErr (List Nat × Int × BufReader) :=
  match r.readFull 4 5 with
  | none => .error .eof
  | some (lenBytes, r1) =>
    let blobLen : Int := int32OfBytes lenBytes
    let n : Int := 4 + blobLen
    if blobLen < 1 ∨ (r1.buffered.length : Int) < blobLen then
      .error (.invalidBlobLength blobLen)
    else
      let blob := r1.buffered.take blobLen.toNat
      let r2 : BufReader := ⟨r1.buffered.drop blobLen.toNat, r1.pending⟩
      let numPadBytes := padNat blobLen.toNat
      if 0 < numPadBytes then
        match r2.readOnce numPadBytes with
        | none => .error .eof
        | some (_, r3) => .ok (blob, n + numPadBytes, r3)
      else .ok (blob, n, r2)

/-- Modelled from the spec: the `Timetag` type (its Go file is not under
`src/`).  Per the spec it is a fixed-point 64-bit value whose raw wire form
is the `u64` itself; `MarshalBinary` writes its 8 big-endian bytes and
`NewTimetagFromTimetag` wraps a raw `u64` unchanged. -/
structure Timetag where
  raw : Nat
deriving DecidableEq, Repr

/-- The closed union of OSC argument kinds carried by `Message.Arguments`
(`interface{}` values discriminated by type switches in the Go code). -/
inductive Argument where
  | boolArg (b : Bool)
  | nilArg
  | int32Arg (v : Nat)
  | int64Arg (v : Nat)
  | float32Arg (v : Nat)
  | float64Arg (v : Nat)
  | stringArg (s : List Nat)
  | blobArg (b : List Nat)
  | timeArg (t : Timetag)
deriving DecidableEq, Repr

/-- The `Message` struct from `message.go`. -/
structure Message where
  Address : List Nat
  Arguments : List Argument
deriving DecidableEq, Repr

/-- `Message.Append` for a single argument. -/
def Message.Append (msg : Message) (arg : Argument) : Message :=
  { msg with Arguments := msg.Arguments ++ [arg] }

/-- `getTypeTag` from `message.go`.  The Go default branch (`'\xff'`) is
unreachable here because `Argument` is the closed union of supported kinds. -/
def getTypeTag : Argument → Nat
  | .boolArg true => 84   -- T
  | .boolArg false => 70  -- F
  | .nilArg => 78         -- N
  | .int32Arg _ => 105    -- i
  | .float32Arg _ => 102  -- f
  | .stringArg _ => 115   -- s
  | .blobArg _ => 98      -- b
  | .int64Arg _ => 104    -- h
  | .float64Arg _ => 100  -- d
  | .timeArg _ => 116     -- t

/-- `Message.typeTags` from `message.go`: `','` followed by one tag byte per
argument; a message without arguments yields just `","`. -/
def Message.typeTags (msg : Message) : List Nat :=
  if msg.Arguments.length = 0 then [44]
  else 44 :: msg.Arguments.map getTypeTag

/-- The type tag byte and payload bytes produced for one argument by the
switch inside `Message.MarshalBinary` (cases in source order).  `T`, `F` and
`N` contribute no payload. -/
def marshalArg : Argument → Nat × List Nat
  | .boolArg true => (84, [])
  | .boolArg false => (70, [])
  | .nilArg => (78, [])
  | .int32Arg v => (105, beBytes 4 v)
  | .float32Arg v => (102, beBytes 4 v)
  | .stringArg s => (115, (writePaddedString s).1)
  | .blobArg b => (98, (writeBlob b).1)
  | .int64Arg v => (104, beBytes 8 v)
  | .float64Arg v => (100, beBytes 8 v)
  | .timeArg t => (116, beBytes 8 t.raw)

/-- `Message.MarshalBinary` from `message.go`: padded address, padded type
tag string, then the argument payloads in order.  The Go error paths
(`bytes.Buffer` writes and the unsupported-type default) are unreachable
over the closed `Argument` union. -/
def Message.MarshalBinary (msg : Message) : List Nat :=
  (writePaddedString msg.Address).1
    ++ (writePaddedString (44 :: msg.Arguments.map fun a => (marshalArg a).1)).1
    ++ (msg.Arguments.map fun a => (marshalArg a).2).flatten

/-- The argument loop of `readArguments` from `message.go`, over the tag
bytes after the comma.  Faithful to the source, including:
* the `'s'` case discards the byte count returned by `readPaddedString` and
  advances `start` by `len(s) + padBytesNeeded(len(s))` instead;
* the `'t'` case returns `nil` — success — when the 8-byte read fails. -/
def processTags : List Nat → Message → List Nat → Int →
    Except DecodeErr (Message × List Nat × Int)
  | [], msg, input, start => .ok (msg, input, start)
  | c :: rest, msg, input, start =>
    if c = 105 then -- i: int32
      if 4 ≤ input.length then
        processTags rest (msg.Append (.int32Arg (beVal (input.take 4))))
          (input.drop 4) (start + 4)
      else .error .eof
    else if c = 104 then -- h: int64
      if 8 ≤ input.length then
        processTags rest (msg.Append (.int64Arg (beVal (input.take 8))))
          (input.drop 8) (start + 8)
      else .error .eof
    else if c = 102 then -- f: float32
      if 4 ≤ input.length then
        processTags rest (msg.Append (.float32Arg (beVal (input.take 4))))
          (input.drop 4) (start + 4)
      else .error .eof
    else if c = 100 then -- d: float64
      if 8 ≤ input.length then
        processTags rest (msg.Append (.float64Arg (beVal (input.take 8))))
          (input.drop 8) (start + 8)
      else .error .eof
    else if c = 115 then -- s: string
      match readPaddedString input with
      | .error e => .error e
      | .ok (s, _n, input1) =>
        let lenStr := s.length
        processTags rest (msg.Append (.stringArg s)) input1
          (start + lenStr + padNat lenStr)
    else if c = 98 then -- b: blob
      match readBlob input with
      | .error e => .error e
      | .ok (buf, n, input1) =>
        processTags rest (msg.Append (.blobArg buf)) input1 (start + n)
    else if c = 116 then -- t: time tag
      if 8 ≤ input.length then
        processTags rest (msg.Append (.timeArg ⟨beVal (input.take 8)⟩))
          (input.drop 8) (start + 8)
      else .ok (msg, input, start) -- the Go code returns nil here
    else if c = 78 then -- N: nil
      processTags rest (msg.Append .nilArg) input start
    else if c = 84 then -- T: true
      processTags rest (msg.Append (.boolArg true)) input start
    else if c = 70 then -- F: false
      processTags rest (msg.Append (.boolArg false)) input start
    else .error (.unsupportedTypeTag c)

/-- `readArguments` from `message.go`: read the padded type tag string,
accept an empty tag string, demand a leading comma otherwise, then process
the tag characters. -/
def readArguments (msg : Message) (input : List Nat) (start : Int) :
    Except DecodeErr (Message × List Nat × Int) :=
  match readPaddedString input with
  | .error e => .error e
  | .ok (typetags, n, input1) =>
    let start := start + n
    match typetags with
    | [] => .ok (msg, input1, start)
    | c :: restTags =>
      if c ≠ 44 then .error (.unsupportedTypeTagString (c :: restTags))
      else processTags restTags msg input1 start

/-- `readMessage` from `message.go`: padded address, then arguments.
`NewMessage addr` is `⟨addr, []⟩`. -/
def readMessage (input : List Nat) (start : Int) :
    Except DecodeErr (Message × List Nat × Int) :=
  match readPaddedString input with
  | .error e => .error e
  | .ok (addr, n, input1) => readArguments ⟨addr, []⟩ input1 (start + n)

/-- The `Packet` sum over messages and bundles.  Modelled from the spec for
the bundle half: `bundle.go` is not under `src/`; per the spec a `Bundle` is
a `Timetag` (kept here as its raw `u64`, since `timetagToTime` and back is
the identity on the raw value) plus its elements in wire order, and
`Bundle.Append` appends an element. -/
inductive Packet where
  | msg (m : Message)
  | bundle (timetag : Nat) (elements : List Packet)

/-- The `"#bundle"` start tag as bytes. -/
def bundleTagString : List Nat := [35, 98, 117, 110, 100, 108, 101]

mutual

/-- `readPacket` from the dispatch half of the source: peek at the first
byte; `'/'` (47) selects `readMessage`, `'#'` (35) selects `readBundle`,
anything else is `ERROR_INVALID_PACKET`; an empty reader gives the peek
error. -/
def readPacket (fuel : Nat) (input : List Nat) (start endO : Int) :
    Except DecodeErr (Packet × List Nat × Int) :=
  match fuel with
  | 0 => .error .fuelExhausted
  | f + 1 =>
    match input.head? with
    | none => .error .eof
    | some b =>
      if b = 47 then
        match readMessage input start with
        | .error e => .error e
        | .ok (m, rest, st) => .ok (.msg m, rest, st)
      else if b = 35 then readBundle f input start endO
      else .error .invalidPacket

/-- `readBundle` from the dispatch half of the source: the padded
`"#bundle"` tag, the 8-byte time tag, then the element loop. -/
def readBundle (fuel : Nat) (input : List Nat) (start endO : Int) :
    Except DecodeErr (Packet × List Nat × Int) :=
  match fuel with
  | 0 => .error .fuelExhausted
  | f + 1 =>
    match readPaddedString input with
    | .error e => .error e
    | .ok (startTag, n, input1) =>
      let start1 := start + n
      if startTag = bundleTagString then
        if 8 ≤ input1.length then
          readBundleLoop f (beVal (input1.take 8)) [] (input1.drop 8)
            (start1 + 8) endO
        else .error .eof
      else .error (.invalidBundleTag startTag)

/-- The element loop of `readBundle`: while `start < endO`, read a 4-byte
big-endian `int32` length — which the source never uses beyond advancing
`start` by 4 — then one packet, and append it.  When `start` is no longer
below `endO` the bundle is returned, with no check that the declared lengths
matched the bytes consumed and no overrun failure. -/
def readBundleLoop (fuel : Nat) (timetag : Nat) (elems : List Packet)
    (input : List Nat) (start endO : Int) :
    Except DecodeErr (Packet × List Nat × Int) :=
  match fuel with
  | 0 => .error .fuelExhausted
  | f + 1 =>
    if start < endO then
      if 4 ≤ input.length then
        let _length : Int := int32OfBytes (input.take 4)
        match readPacket f (input.drop 4) (start + 4) endO with
        | .error e => .error e
        | .ok (p, input2, start2) =>
          readBundleLoop f timetag (elems ++ [p]) input2 start2 endO
      else .error .eof
    else .ok (.bundle timetag elems, input, start)

end

/-- Modelled from the spec: the `decodePacket` entry point (the transport
half of the package, not under `src/`) hands the full datagram to
`readPacket` with the byte counter at 0 and the end offset at the datagram
length.  The fuel is an upper bound on nesting depth, ample for the input. -/
def decodePacket (input : List Nat) :
    Except DecodeErr (Packet × List Nat × Int) :=
  readPacket (input.length + 8) input 0 (input.length : Int)

/-! ## Address pattern matching

`getRegEx` in the source turns an OSC address pattern into a Go (RE2)
regular expression by sequential single-character replacement and matches
with `MatchString`, which reports whether the expression matches *anywhere*
in the candidate string.  Patterns and addresses are byte lists; the bytes
involved are ASCII, where Go's rune-based matching coincides with byte-based
matching.  Byte codes used below: 40 `(` 41 `)` 42 `*` 44 `,` 46 `.`
63 `?` 92 backslash 123 `{` 124 `|` 125 `}`. -/

/-- One `strings.Replace(pattern, old, new, -1)` pass for a single-character
`old`: every occurrence of `old` in the original is replaced by `new`
(replacements never rescan their own output, and all `old`s here are single
characters). -/
def replacePass (old : Nat) (new : List Nat) : List Nat → List Nat
  | [] => []
  | c :: cs => (if c = old then new else [c]) ++ replacePass old new cs

/-- `getRegEx` from `message.go`: the eight replacement passes in source
order, producing the text of the regular expression to compile. -/
def getRegEx (pattern : List Nat) : List Nat :=
  let p1 := replacePass 46 [92, 46] pattern    -- "."  ↦ backslash "."
  let p2 := replacePass 40 [92, 40] p1         -- "("  ↦ backslash "("
  let p3 := replacePass 41 [92, 41] p2         -- ")"  ↦ backslash ")"
  let p4 := replacePass 42 [46, 42] p3         -- "*"  ↦ ".*"
  let p5 := replacePass 123 [40] p4            -- "\x7b" ↦ "("
  let p6 := replacePass 44 [124] p5            -- ","  ↦ "|"
  let p7 := replacePass 125 [41] p6            -- "\x7d" ↦ ")"
  replacePass 63 [46] p7                       -- "?"  ↦ "."

/-- Regular expressions over bytes, the fragment RE2 needs for translated
OSC address patterns. -/
inductive RE where
  | emp
  | eps
  | chr (c : Nat)
  | dot
  | seq (a b : RE)
  | alt (a b : RE)
  | star (a : RE)
deriving DecidableEq, Repr

/-- Does `r` accept the empty string? -/
def RE.nullable : RE → Bool
  | .emp => false
  | .eps => true
  | .chr _ => false
  | .dot => false
  | .seq a b => a.nullable && b.nullable
  | .alt a b => a.nullable || b.nullable
  | .star _ => true

/-- Brzozowski derivative of `r` by the byte `a`.  RE2's `.` matches any
character except newline (10). -/
def RE.deriv : RE → Nat → RE
  | .emp, _ => .emp
  | .eps, _ => .emp
  | .chr c, a => if a = c then .eps else .emp
  | .dot, a => if a = 10 then .emp else .eps
  | .seq r s, a =>
    if r.nullable then .alt (.seq (r.deriv a) s) (s.deriv a)
    else .seq (r.deriv a) s
  | .alt r s, a => .alt (r.deriv a) (s.deriv a)
  | .star r, a => .seq (r.deriv a) (.star r)

/-- Whole-string acceptance via iterated derivatives. -/
def RE.accepts (r : RE) (s : List Nat) : Bool :=
  (s.foldl RE.deriv r).nullable

/-- `regexp.MatchString`: true when some substring of `s` is accepted. -/
def reMatchString (r : RE) (s : List Nat) : Bool :=
  (List.range (s.length + 1)).any fun i =>
    (List.range (s.length + 1 - i)).any fun j =>
      r.accepts ((s.drop i).take j)

mutual

/-- Parse an alternation (`a|b|…`) from the regex text. -/
def parseAlt (fuel : Nat) (s : List Nat) : Option (RE × List Nat) :=
  match fuel with
  | 0 => none
  | f + 1 =>
    match parseSeq f s with
    | none => none
    | some (r, rest) =>
      match rest with
      | 124 :: rest2 =>
        match parseAlt f rest2 with
        | some (r2, rest3) => some (.alt r r2, rest3)
        | none => none
      | _ => some (r, rest)

/-- Parse a concatenation of starred atoms, stopping at `)`, `|` or the
end. -/
def parseSeq (fuel : Nat) (s : List Nat) : Option (RE × List Nat) :=
  match fuel with
  | 0 => none
  | f + 1 =>
    match s with
    | [] => some (.eps, [])
    | 41 :: _ => some (.eps, s)
    | 124 :: _ => some (.eps, s)
    | _ =>
      match parseRep f s with
      | none => none
      | some (r, rest) =>
        match parseSeq f rest with
        | some (r2, rest2) => some (.seq r r2, rest2)
        | none => none

/-- Parse one atom and an optional postfix `*`. -/
def parseRep (fuel : Nat) (s : List Nat) : Option (RE × List Nat) :=
  match fuel with
  | 0 => none
  | f + 1 =>
    match parseAtom f s with
    | some (r, 42 :: rest) => some (.star r, rest)
    | some (r, rest) => some (r, rest)
    | none => none

/-- Parse one atom: a parenthesised group, an escaped character, `.`, or a
literal character. -/
def parseAtom (fuel : Nat) (s : List Nat) : Option (RE × List Nat) :=
  match fuel with
  | 0 => none
  | f + 1 =>
    match s with
    | [] => none
    | 92 :: c :: rest => some (.chr c, rest)
    | 40 :: rest =>
      match parseAlt f rest with
      | some (r, 41 :: rest2) => some (r, rest2)
      | _ => none
    | 46 :: rest => some (.dot, rest)
    | 41 :: _ => none
    | 124 :: _ => none
    | 42 :: _ => none
    | 92 :: [] => none
    | c :: rest => some (.chr c, rest)

end

/-- `regexp.MustCompile`: parse the whole regex text.  `none` models the
panic on a malformed expression (never hit by the patterns considered
here). -/
def compileRx (s : List Nat) : Option RE :=
  match parseAlt (4 * s.length + 4) s with
  | some (r, []) => some r
  | _ => none

/-- `Message.Match` from `message.go`: compile the message's address as a
pattern and run `MatchString` against the candidate address. -/
def Message.Match (msg : Message) (addr : List Nat) : Bool :=
  match compileRx (getRegEx msg.Address) with
  | some r => reMatchString r addr
  | none => false

/-! ## Basic facts: padding arithmetic, big-endian words, null scanning -/

theorem emod_four_bounds (m : Int) : 0 ≤ m % 4 ∧ m % 4 < 4 :=
  ⟨Int.emod_nonneg m (by norm_num), Int.emod_lt_of_pos m (by norm_num)⟩

theorem padBytesNeeded_of_nonneg (n : Int) (h : 0 ≤ n) :
    padBytesNeeded n = (4 - n % 4) % 4 := by
  unfold padBytesNeeded
  rw [Int.tmod_eq_emod h (by norm_num),
    Int.tmod_eq_emod (by have := emod_four_bounds n; omega) (by norm_num)]

theorem padNat_eq (n : Nat) : padNat n = (4 - n % 4) % 4 := by
  unfold padNat
  rw [padBytesNeeded_of_nonneg _ (Int.ofNat_nonneg n)]
  have := emod_four_bounds (n : Nat)
  omega

theorem padNat_lt (n : Nat) : padNat n < 4 := by
  rw [padNat_eq]; omega

theorem padNat_add (n : Nat) : (n + padNat n) % 4 = 0 := by
  rw [padNat_eq]; omega

theorem beBytes_length (k v : Nat) : (beBytes k v).length = k := by
  induction k generalizing v with
  | zero => rfl
  | succ k ih => simp [beBytes, ih]

theorem beVal_append_singleton (bs : List Nat) (b : Nat) :
    beVal (bs ++ [b]) = beVal bs * 256 + b := by
  simp [beVal, List.foldl_append]

theorem beVal_beBytes (k v : Nat) : beVal (beBytes k v) = v % 256 ^ k := by
  induction k generalizing v with
  | zero => simp [beBytes, beVal, Nat.mod_one]
  | succ k ih =>
    rw [beBytes, beVal_append_singleton, ih]
    have h1 : 256 ^ (k + 1) = 256 * 256 ^ k := by ring
    rw [h1, Nat.mod_mul]
    omega

theorem take_len_append (s t : List Nat) : (s ++ t).take s.length = s := by
  simp

theorem drop_len_append (s t : List Nat) : (s ++ t).drop s.length = t := by
  simp

theorem firstNullIdx_of_not_mem (s : List Nat) (h : 0 ∉ s) :
    firstNullIdx s = none := by
  induction s with
  | nil => rfl
  | cons b bs ih =>
    simp only [List.mem_cons, not_or] at h
    simp [firstNullIdx, Ne.symm h.1, ih h.2]

theorem firstNullIdx_append (s t : List Nat) (h : 0 ∉ s) :
    firstNullIdx (s ++ 0 :: t) = some s.length := by
  induction s with
  | nil => simp [firstNullIdx]
  | cons b bs ih =>
    simp only [List.mem_cons, not_or] at h
    simp [firstNullIdx, Ne.symm h.1, ih h.2]

theorem take_exact (s t : List Nat) (k : Nat) (h : s.length = k) :
    (s ++ t).take k = s := by
  subst h; simp

theorem drop_exact (s t : List Nat) (k : Nat) (h : s.length = k) :
    (s ++ t).drop k = t := by
  subst h; simp

theorem int32OfBytes_beBytes (v : Nat) (h : v < 2 ^ 31) :
    int32OfBytes (beBytes 4 v) = (v : Int) := by
  unfold int32OfBytes
  rw [beVal_beBytes]
  have hm : v % 256 ^ 4 = v :=
    Nat.mod_eq_of_lt (Nat.lt_trans h (by norm_num))
  rw [hm, if_pos h]

/-! ## Frame lemmas: reading back what was written -/

theorem writePaddedString_of_not_mem (s : List Nat) (h : 0 ∉ s) :
    writePaddedString s =
      (s ++ 0 :: List.replicate (padNat (s.length + 1)) 0,
        s.length + 1 + padNat (s.length + 1)) := by
  unfold writePaddedString
  rw [firstNullIdx_of_not_mem s h]
  norm_num

theorem readPaddedString_frame (s rest : List Nat) (h : 0 ∉ s) :
    readPaddedString (s ++ 0 :: (List.replicate (padNat (s.length + 1)) 0 ++ rest)) =
      .ok (s, s.length + 1 + padNat (s.length + 1), rest) := by
  unfold readPaddedString
  rw [firstNullIdx_append s _ h]
  have htake : (s ++ 0 :: (List.replicate (padNat (s.length + 1)) 0 ++ rest)).take s.length = s :=
    take_exact s _ _ rfl
  have hassoc : s ++ 0 :: (List.replicate (padNat (s.length + 1)) 0 ++ rest)
      = (s ++ [0]) ++ (List.replicate (padNat (s.length + 1)) 0 ++ rest) := by
    simp
  have hdrop : (s ++ 0 :: (List.replicate (padNat (s.length + 1)) 0 ++ rest)).drop (s.length + 1)
      = List.replicate (padNat (s.length + 1)) 0 ++ rest := by
    rw [hassoc]
    exact drop_exact _ _ _ (by simp)
  by_cases hp : 0 < padNat (s.length + 1)
  · have hne : (List.replicate (padNat (s.length + 1)) 0 ++ rest).isEmpty = false := by
      rcases Nat.exists_eq_add_of_lt hp with ⟨p, hp2⟩
      rw [show padNat (s.length + 1) = p + 1 by omega]
      simp [List.replicate_succ]
    have hdrop2 : (List.replicate (padNat (s.length + 1)) 0 ++ rest).drop (padNat (s.length + 1))
        = rest := drop_exact _ _ _ (by simp)
    simp [hp, htake, hdrop, hne, hdrop2]
  · have hp0 : padNat (s.length + 1) = 0 := by omega
    simp [hp0, htake] at hdrop ⊢

theorem readPaddedString_write (s rest : List Nat) (h : 0 ∉ s) :
    readPaddedString ((writePaddedString s).1 ++ rest) =
      .ok (s, s.length + 1 + padNat (s.length + 1), rest) := by
  rw [writePaddedString_of_not_mem s h]
  have hassoc : (s ++ 0 :: List.replicate (padNat (s.length + 1)) 0) ++ rest
      = s ++ 0 :: (List.replicate (padNat (s.length + 1)) 0 ++ rest) := by
    simp
  rw [hassoc, readPaddedString_frame s rest h]

theorem readBlob_write (b rest : List Nat) (h1 : 1 ≤ b.length)
    (h2 : b.length < 2 ^ 31) :
    readBlob ((writeBlob b).1 ++ rest) =
      .ok (b, 4 + (b.length : Int) + (padNat b.length : Int), rest) := by
  unfold writeBlob readBlob
  have hassoc : (beBytes 4 b.length ++ b ++ List.replicate (padNat b.length) 0) ++ rest
      = beBytes 4 b.length ++ (b ++ (List.replicate (padNat b.length) 0 ++ rest)) := by
    simp
  rw [hassoc]
  have hlen : 4 ≤ (beBytes 4 b.length ++ (b ++ (List.replicate (padNat b.length) 0 ++ rest))).length := by
    simp [beBytes_length]
  have htake4 : (beBytes 4 b.length ++ (b ++ (List.replicate (padNat b.length) 0 ++ rest))).take 4
      = beBytes 4 b.length := take_exact _ _ _ (beBytes_length 4 _)
  have hdrop4 : (beBytes 4 b.length ++ (b ++ (List.replicate (padNat b.length) 0 ++ rest))).drop 4
      = b ++ (List.replicate (padNat b.length) 0 ++ rest) := drop_exact _ _ _ (beBytes_length 4 _)
  rw [if_pos hlen]
  simp only [htake4, hdrop4, int32OfBytes_beBytes b.length h2]
  have hcheck : ¬ ((b.length : Int) < 1 ∨
      ((b ++ (List.replicate (padNat b.length) 0 ++ rest)).length : Int) < (b.length : Int)) := by
    simp only [List.length_append]
    push_cast
    omega
  rw [if_neg hcheck]
  have htn : ((b.length : Int)).toNat = b.length := Int.toNat_ofNat b.length
  have htakeb : (b ++ (List.replicate (padNat b.length) 0 ++ rest)).take ((b.length : Int)).toNat
      = b := by rw [htn]; exact take_exact _ _ _ rfl
  have hdropb : (b ++ (List.replicate (padNat b.length) 0 ++ rest)).drop ((b.length : Int)).toNat
      = List.replicate (padNat b.length) 0 ++ rest := by
    rw [htn]; exact drop_exact _ _ _ rfl
  simp only [htakeb, hdropb, htn]
  by_cases hp : 0 < padNat b.length
  · have hne : (List.replicate (padNat b.length) 0 ++ rest).isEmpty = false := by
      rcases Nat.exists_eq_add_of_lt hp with ⟨p, hp2⟩
      rw [show padNat b.length = p + 1 by omega]
      simp [List.replicate_succ]
    have hdropp : (List.replicate (padNat b.length) 0 ++ rest).drop (padNat b.length)
        = rest := drop_exact _ _ _ (by simp)
    simp [hp, hne, hdropp]
  · have hp0 : padNat b.length = 0 := by omega
    simp [hp0]

/-! ## C6: the padding computation -/

/-- C6: for nonnegative `n`, `padBytesNeeded n` is `(4 - (n mod 4)) mod 4`,
lies in `[0, 4)`, and completes `n` to a multiple of 4. -/
theorem C6_padBytesNeeded (n : Int) (h : 0 ≤ n) :
    padBytesNeeded n = (4 - n % 4) % 4 ∧ 0 ≤ padBytesNeeded n ∧
      padBytesNeeded n < 4 ∧ (n + padBytesNeeded n) % 4 = 0 := by
  have he := padBytesNeeded_of_nonneg n h
  have hb := emod_four_bounds n
  have hb2 := emod_four_bounds (4 - n % 4)
  refine ⟨he, ?_, ?_, ?_⟩ <;> rw [he] <;> omega

/-- Witness for C6 at `n = 7`. -/
theorem C6_padBytesNeeded_witness :
    (0 : Int) ≤ 7 ∧ (padBytesNeeded 7 = (4 - (7 : Int) % 4) % 4 ∧
      0 ≤ padBytesNeeded 7 ∧ padBytesNeeded 7 < 4 ∧
      ((7 : Int) + padBytesNeeded 7) % 4 = 0) :=
  ⟨by norm_num, C6_padBytesNeeded 7 (by norm_num)⟩

/-! ## C7: writePaddedString -/

/-- The behaviour claim C7 ascribes to `writePaddedString`, written from the
spec's words: the string is truncated at its first embedded null wherever
that null occurs, then one null terminator and zero padding to a multiple of
4 are appended, and the byte count is returned. -/
def claimedWritePaddedString (str : List Nat) : List Nat × Nat :=
  let str2 := match firstNullIdx str with
    | some i => str.take i
    | none => str
  let n := str2.length + 1
  let numPadBytes := (4 - n % 4) % 4
  (str2 ++ 0 :: List.replicate numPadBytes 0, n + numPadBytes)

/-- The amended behaviour: identical, except that the truncation happens only
when the first null sits at a *positive* index; a string whose first byte is
null is emitted untruncated. -/
def amendedWritePaddedString (str : List Nat) : List Nat × Nat :=
  let str2 := match firstNullIdx str with
    | some i => if 0 < i then str.take i else str
    | none => str
  let n := str2.length + 1
  let numPadBytes := (4 - n % 4) % 4
  (str2 ++ 0 :: List.replicate numPadBytes 0, n + numPadBytes)

/-- Counterexample to C7: on the string `"\x00a"` (bytes `[0, 97]`) the code
does not truncate at the first null — the Go guard `nullIndex > 0` fails at
index 0 — so the emitted bytes keep the `97`, while the claimed behaviour
zeroes it out. -/
theorem C7_writePaddedString_counterexample :
    writePaddedString [0, 97] = ([0, 97, 0, 0], 4)
    ∧ claimedWritePaddedString [0, 97] = ([0, 0, 0, 0], 4)
    ∧ writePaddedString [0, 97] ≠ claimedWritePaddedString [0, 97] := by
  refine ⟨by decide, by decide, by decide⟩

/-- C7 as amended: `writePaddedString` truncates at the first embedded null
only when that null is at a positive index, appends one null terminator and
zero padding to a multiple of 4 (at least 4 bytes total), and returns the
number of bytes written. -/
theorem C7_writePaddedString_amended (s : List Nat) :
    writePaddedString s = amendedWritePaddedString s
    ∧ (writePaddedString s).1.length % 4 = 0
    ∧ 4 ≤ (writePaddedString s).1.length
    ∧ (writePaddedString s).2 = (writePaddedString s).1.length := by
  have heq : writePaddedString s = amendedWritePaddedString s := by
    unfold writePaddedString amendedWritePaddedString
    rcases hfn : firstNullIdx s with _ | i
    · simp [padNat_eq]
    · by_cases hi : 0 < i
      · have hgt : ((i : Nat) : Int) > 0 := by exact_mod_cast hi
        simp [hi, hgt, padNat_eq]
      · have hi0 : i = 0 := by omega
        subst hi0
        norm_num [padNat_eq]
  have hshape : (writePaddedString s).1.length = (writePaddedString s).2 := by
    unfold writePaddedString
    simp
    omega
  have h2 : (writePaddedString s).2 % 4 = 0 ∧ 1 ≤ (writePaddedString s).2 := by
    unfold writePaddedString
    refine ⟨?_, by simp; omega⟩
    have := padNat_add ((if (match firstNullIdx s with
      | some i => (i : Int)
      | none => -1) > 0 then
        s.take (match firstNullIdx s with
          | some i => (i : Int)
          | none => -1).toNat else s).length + 1)
    simpa using this
  refine ⟨heq, ?_, ?_, hshape.symm⟩
  · rw [hshape]; exact h2.1
  · rw [hshape]; omega

/-! ## C8: the type tag string -/

/-- C8: the derived type-tag string always begins with `','` (44) and has
exactly one fixed tag byte per argument in order, with the empty argument
list yielding exactly `","`; the tag table is the fixed one from the claim. -/
theorem C8_typeTags :
    (∀ msg : Message, msg.typeTags = 44 :: msg.Arguments.map getTypeTag)
    ∧ (∀ addr : List Nat, (Message.mk addr []).typeTags = [44])
    ∧ getTypeTag (.boolArg true) = 84 ∧ getTypeTag (.boolArg false) = 70
    ∧ getTypeTag .nilArg = 78
    ∧ (∀ v, getTypeTag (.int32Arg v) = 105)
    ∧ (∀ v, getTypeTag (.int64Arg v) = 104)
    ∧ (∀ v, getTypeTag (.float32Arg v) = 102)
    ∧ (∀ v, getTypeTag (.float64Arg v) = 100)
    ∧ (∀ s, getTypeTag (.stringArg s) = 115)
    ∧ (∀ b, getTypeTag (.blobArg b) = 98)
    ∧ (∀ t, getTypeTag (.timeArg t) = 116) := by
  refine ⟨?_, fun _ => rfl, rfl, rfl, rfl, fun _ => rfl, fun _ => rfl,
    fun _ => rfl, fun _ => rfl, fun _ => rfl, fun _ => rfl, fun _ => rfl⟩
  intro msg
  rcases msg with ⟨addr, args⟩
  cases args <;> simp [Message.typeTags]

/-! ## C2: address pattern matching

Byte spellings: `"/foo/?"` is `[47,102,111,111,47,63]`, `"/foo/ba"` is
`[47,102,111,111,47,98,97]`, `"/foo/b"` is `[47,102,111,111,47,98]`,
`"/foo/*"` is `[47,102,111,111,47,42]`, `"/foo/bar"` is
`[47,102,111,111,47,98,97,114]`, `"/a/\x7bx,y\x7d"` is
`[47,97,47,123,120,44,121,125]`, `"/a/x"` is `[47,97,47,120]`, `"/a/z"` is
`[47,97,47,122]`. -/

/-- Counterexample to C2: matching is *not* anchored.  `MatchString` reports
a match anywhere in the candidate, so the matcher compiled from `"/foo/?"`
accepts `"/foo/ba"` (via its substring `"/foo/b"`), where the claim says it
must reject it. -/
theorem C2_match_counterexample :
    (Message.mk [47, 102, 111, 111, 47, 63] []).Match
      [47, 102, 111, 111, 47, 98, 97] = true := by
  rfl

/-- C2 as amended: matching is an unanchored substring search, case
sensitive.  The matcher for `"/foo/?"` accepts both `"/foo/ba"` and
`"/foo/b"`; `"/foo/*"` accepts `"/foo/bar"`; `"/a/\x7bx,y\x7d"` accepts
`"/a/x"` and rejects `"/a/z"`. -/
theorem C2_match_amended :
    (Message.mk [47, 102, 111, 111, 47, 63] []).Match
      [47, 102, 111, 111, 47, 98, 97] = true
    ∧ (Message.mk [47, 102, 111, 111, 47, 63] []).Match
      [47, 102, 111, 111, 47, 98] = true
    ∧ (Message.mk [47, 102, 111, 111, 47, 42] []).Match
      [47, 102, 111, 111, 47, 98, 97, 114] = true
    ∧ (Message.mk [47, 97, 47, 123, 120, 44, 121, 125] []).Match
      [47, 97, 47, 120] = true
    ∧ (Message.mk [47, 97, 47, 123, 120, 44, 121, 125] []).Match
      [47, 97, 47, 122] = false :=
  ⟨rfl, rfl, rfl, rfl, rfl⟩

/-! ## C3: the swallowed error in the time-tag argument case -/

/-- C3 failing input evaluated: the buffer holds the padded address `"/a"`
and the padded type tag string `",t"` and then ends, so the 8-byte time-tag
read must fail; yet `readMessage` returns success with a truncated (empty)
argument list, because the `'t'` case of the Go argument loop ends with
`return nil` instead of `return err`. -/
theorem C3_time_tag_error_swallowed :
    readMessage [47, 97, 0, 0, 44, 116, 0, 0] 0 =
      .ok (⟨[47, 97], []⟩, [], 8) := by
  rfl

/-! ## C4: the blob length bound is taken against the prefetched bytes -/

/-- C4 failing input evaluated: a `bufio` state whose buffer holds the
4-byte length word `[0,0,0,4]` plus two data bytes, with two more data bytes
still in the underlying reader.  The declared length 4 is positive and equals
the 4 truly remaining bytes, so by the claim decoding must not fail with an
invalid-length error — but the code compares the length against
`reader.Buffered()` (2 bytes) and rejects it. -/
theorem C4_blob_bound_is_buffered :
    readBlobBuf ⟨[0, 0, 0, 4, 1, 2], [3, 4]⟩ =
      .error (.invalidBlobLength 4)
    ∧ ((1 : Int) ≤ 4
        ∧ ([1, 2] : List Nat).length + ([3, 4] : List Nat).length = 4) := by
  exact ⟨rfl, by norm_num⟩

/-! ## C10: the string argument case advances the counter wrongly -/

/-- C10 failing input evaluated: decoding the arguments of a message whose
type tag string is `",s"` with string payload `"abcd"` (padded to 8 bytes).
The decoder consumes all 12 input bytes (4 for the tag string, 8 for the
string argument) but advances the byte counter only to 8: the `'s'` case
discards the count returned by `readPaddedString` and adds
`len(s) + padBytesNeeded(len(s))`, which undercounts by 4 whenever
`len(s) % 4 == 0`. -/
theorem C10_string_cursor_undercount :
    readArguments ⟨[47], []⟩ [44, 115, 0, 0, 97, 98, 99, 100, 0, 0, 0, 0] 0 =
      .ok (⟨[47], [.stringArg [97, 98, 99, 100]]⟩, [], 8)
    ∧ ([44, 115, 0, 0, 97, 98, 99, 100, 0, 0, 0, 0] : List Nat).length = 12
    ∧ (8 : Int) ≠ 12 := by
  exact ⟨rfl, rfl, by norm_num⟩

/-! ## C5: the bundle element loop -/

/-- Counterexample to C5: a bundle whose single element declares length 100
but actually occupies 8 bytes.  Under the claim the offset would advance to
`16 + 4 + 100 = 120`, overrunning `endOffset = 28` and forcing a failure;
the code instead advances by `4 +` the bytes the element really consumed,
never checks the declared length, and returns the bundle successfully. -/
theorem C5_bundle_loop_counterexample :
    readBundle 5
      ([35, 98, 117, 110, 100, 108, 101, 0] ++ [0, 0, 0, 0, 0, 0, 0, 1]
        ++ [0, 0, 0, 100] ++ [47, 97, 0, 0, 44, 0, 0, 0]) 0 28 =
      .ok (.bundle 1 [.msg ⟨[47, 97], []⟩], [], 28)
    ∧ int32OfBytes [0, 0, 0, 100] = 100
    ∧ (16 : Int) + 4 + 100 ≠ 28 := by
  exact ⟨rfl, rfl, by norm_num⟩

/-- C5 as amended: the element loop (a) returns the bundle successfully the
moment the offset is not below `endOffset`, with no overrun or framing
check; (b) ignores the value of the 4-byte length prefix it reads — decoding
is unchanged if the length word is replaced by any other 4-byte word; and
(c) each iteration consumes the 4 length bytes and then exactly one packet,
the offset advancing by 4 plus whatever the packet decode adds. -/
theorem C5_bundle_loop_amended :
    (∀ (fuel t : Nat) (elems : List Packet) (input : List Nat) (start endO : Int),
      ¬ start < endO →
      readBundleLoop (fuel + 1) t elems input start endO =
        .ok (.bundle t elems, input, start))
    ∧ (∀ (fuel t : Nat) (elems : List Packet) (L Lp : Nat) (rest : List Nat)
        (start endO : Int), start < endO →
      readBundleLoop fuel t elems (beBytes 4 L ++ rest) start endO =
        readBundleLoop fuel t elems (beBytes 4 Lp ++ rest) start endO)
    ∧ (∀ (fuel t : Nat) (elems : List Packet) (L : Nat) (rest : List Nat)
        (start endO : Int), start < endO →
      readBundleLoop (fuel + 1) t elems (beBytes 4 L ++ rest) start endO =
        match readPacket fuel rest (start + 4) endO with
        | .error e => .error e
        | .ok (p, input2, start2) =>
          readBundleLoop fuel t (elems ++ [p]) input2 start2 endO) := by
  refine ⟨?_, ?_, ?_⟩
  · intro fuel t elems input start endO h
    simp only [readBundleLoop, if_neg h]
  · intro fuel t elems L Lp rest start endO h
    match fuel with
    | 0 => rfl
    | f + 1 =>
      have h4L : 4 ≤ (beBytes 4 L ++ rest).length := by simp [beBytes_length]
      have h4Lp : 4 ≤ (beBytes 4 Lp ++ rest).length := by simp [beBytes_length]
      simp only [readBundleLoop, if_pos h, if_pos h4L, if_pos h4Lp,
        drop_exact _ _ _ (beBytes_length 4 L),
        drop_exact _ _ _ (beBytes_length 4 Lp)]
  · intro fuel t elems L rest start endO h
    have h4 : 4 ≤ (beBytes 4 L ++ rest).length := by simp [beBytes_length]
    simp only [readBundleLoop, if_pos h, if_pos h4,
      drop_exact _ _ _ (beBytes_length 4 L)]

/-- Witness for C5's amended theorem at concrete inputs. -/
theorem C5_bundle_loop_amended_witness :
    readBundleLoop 1 0 [] [] 5 5 = .ok (.bundle 0 [], [], 5)
    ∧ readBundleLoop 1 0 [] (beBytes 4 1 ++ []) 0 1 =
        readBundleLoop 1 0 [] (beBytes 4 2 ++ []) 0 1
    ∧ readBundleLoop 1 0 [] (beBytes 4 7 ++ []) 0 1 =
        match readPacket 0 [] (0 + 4) 1 with
        | .error e => .error e
        | .ok (p, input2, start2) => readBundleLoop 0 0 ([] ++ [p]) input2 start2 1 :=
  ⟨C5_bundle_loop_amended.1 0 0 [] [] 5 5 (by norm_num),
   C5_bundle_loop_amended.2.1 1 0 [] 1 2 [] 0 1 (by norm_num),
   C5_bundle_loop_amended.2.2 0 0 [] 7 [] 0 1 (by norm_num)⟩

/-! ## C9: type tag string validation -/

theorem readPaddedString_error_eof (input : List Nat) (e : DecodeErr)
    (h : readPaddedString input = .error e) : e = .eof := by
  unfold readPaddedString at h
  split at h
  · exact ((Except.error.injEq _ _).mp h).symm
  · dsimp only at h
    split at h
    · split at h
      · exact ((Except.error.injEq _ _).mp h).symm
      · exact absurd h (by simp)
    · exact absurd h (by simp)

theorem readBlob_error_shape (input : List Nat) (e : DecodeErr)
    (h : readBlob input = .error e) :
    e = .eof ∨ ∃ l, e = .invalidBlobLength l := by
  unfold readBlob at h
  split at h
  · dsimp only at h
    split at h
    · exact Or.inr ⟨_, ((Except.error.injEq _ _).mp h).symm⟩
    · split at h
      · split at h
        · exact Or.inl ((Except.error.injEq _ _).mp h).symm
        · exact absurd h (by simp)
      · exact absurd h (by simp)
  · exact Or.inl ((Except.error.injEq _ _).mp h).symm

/-- The argument loop can fail in several ways, but never with the
malformed-tag-string error: that error arises only from the leading-comma
check in `readArguments`. -/
theorem processTags_no_tagstring_error (tags : List Nat) (msg : Message)
    (input : List Nat) (start : Int) (t : List Nat) :
    processTags tags msg input start ≠ .error (.unsupportedTypeTagString t) := by
  induction tags generalizing msg input start with
  | nil => simp [processTags]
  | cons c rest ih =>
    simp only [processTags]
    by_cases h1 : c = 105
    · rw [if_pos h1]
      split
      · exact ih _ _ _
      · simp
    rw [if_neg h1]
    by_cases h2 : c = 104
    · rw [if_pos h2]
      split
      · exact ih _ _ _
      · simp
    rw [if_neg h2]
    by_cases h3 : c = 102
    · rw [if_pos h3]
      split
      · exact ih _ _ _
      · simp
    rw [if_neg h3]
    by_cases h4 : c = 100
    · rw [if_pos h4]
      split
      · exact ih _ _ _
      · simp
    rw [if_neg h4]
    by_cases h5 : c = 115
    · rw [if_pos h5]
      cases hrp : readPaddedString input with
      | error e =>
        have he := readPaddedString_error_eof input e hrp
        subst he
        simp
      | ok v =>
        rcases v with ⟨s, n2, input1⟩
        exact ih _ _ _
    rw [if_neg h5]
    by_cases h6 : c = 98
    · rw [if_pos h6]
      cases hrb : readBlob input with
      | error e =>
        rcases readBlob_error_shape input e hrb with he | ⟨l, he⟩ <;>
          (subst he; simp)
      | ok v =>
        rcases v with ⟨buf, n2, input1⟩
        exact ih _ _ _
    rw [if_neg h6]
    by_cases h7 : c = 116
    · rw [if_pos h7]
      split
      · exact ih _ _ _
      · simp
    rw [if_neg h7]
    by_cases h8 : c = 78
    · rw [if_pos h8]
      exact ih _ _ _
    rw [if_neg h8]
    by_cases h9 : c = 84
    · rw [if_pos h9]
      exact ih _ _ _
    rw [if_neg h9]
    by_cases h10 : c = 70
    · rw [if_pos h10]
      exact ih _ _ _
    rw [if_neg h10]
    simp

/-- C9: once the type tag string has been read, message argument decoding
fails with the malformed-tag-string error exactly when that string is
non-empty and does not start with `','` (44); an empty tag string yields the
message unchanged (zero arguments appended); and a tag character outside the
recognized alphabet makes the argument loop fail at that character with the
unknown-type-tag error, whatever the remaining input. -/
theorem C9_tag_validation :
    (∀ (msg : Message) (input : List Nat) (start : Int) (tags : List Nat)
        (n : Nat) (rest : List Nat),
      readPaddedString input = .ok (tags, n, rest) →
      (readArguments msg input start = .error (.unsupportedTypeTagString tags)
        ↔ tags ≠ [] ∧ tags.head? ≠ some 44))
    ∧ (∀ (msg : Message) (input : List Nat) (start : Int) (n : Nat)
        (rest : List Nat),
      readPaddedString input = .ok ([], n, rest) →
      readArguments msg input start = .ok (msg, rest, start + n))
    ∧ (∀ (c : Nat) (rest : List Nat) (msg : Message) (input : List Nat)
        (start : Int),
      c ∉ ([105, 104, 102, 100, 115, 98, 116, 78, 84, 70] : List Nat) →
      processTags (c :: rest) msg input start =
        .error (.unsupportedTypeTag c)) := by
  refine ⟨?_, ?_, ?_⟩
  · intro msg input start tags n rest h
    unfold readArguments
    rw [h]
    cases tags with
    | nil => simp
    | cons c restTags =>
      by_cases hc : c = 44
      · subst hc
        simp [processTags_no_tagstring_error]
      · simp [hc]
  · intro msg input start n rest h
    unfold readArguments
    rw [h]
  · intro c rest msg input start hc
    simp only [List.mem_cons, List.not_mem_nil, or_false, not_or] at hc
    obtain ⟨g1, g2, g3, g4, g5, g6, g7, g8, g9, g10⟩ := hc
    simp only [processTags, if_neg g1, if_neg g2, if_neg g3, if_neg g4,
      if_neg g5, if_neg g6, if_neg g7, if_neg g8, if_neg g9, if_neg g10]

/-- Witness for C9's theorem at concrete inputs: a tag string `"A"` without
a comma is rejected, an empty tag string gives zero arguments, and the
unknown tag byte 200 fails. -/
theorem C9_tag_validation_witness :
    (readArguments ⟨[], []⟩ [65, 0, 0, 0] 0 =
        .error (.unsupportedTypeTagString [65])
      ↔ ([65] : List Nat) ≠ [] ∧ ([65] : List Nat).head? ≠ some 44)
    ∧ readArguments ⟨[], []⟩ [0, 0, 0, 0] 0 = .ok (⟨[], []⟩, [], 0 + 4)
    ∧ processTags [200] ⟨[], []⟩ [] 0 = .error (.unsupportedTypeTag 200) :=
  ⟨C9_tag_validation.1 ⟨[], []⟩ [65, 0, 0, 0] 0 [65] 4 [] rfl,
   C9_tag_validation.2.1 ⟨[], []⟩ [0, 0, 0, 0] 0 4 [] rfl,
   C9_tag_validation.2.2 200 [] ⟨[], []⟩ [] 0 (by decide)⟩

/-! ## C1: message round trip -/

/-- Counterexample to C1: the message `⟨"/a", [Blob []]⟩` is constructible
(Go freely builds a message with an empty byte-slice argument), but decoding
its encoding fails — `readBlob` rejects any declared length below 1 — so the
round trip does not return the message. -/
theorem C1_roundtrip_counterexample :
    Message.MarshalBinary ⟨[47, 97], [.blobArg []]⟩ =
      [47, 97, 0, 0, 44, 98, 0, 0, 0, 0, 0, 0]
    ∧ decodePacket [47, 97, 0, 0, 44, 98, 0, 0, 0, 0, 0, 0] =
      .error (.invalidBlobLength 0) :=
  ⟨rfl, rfl⟩

/-- Arguments whose encoding survives the decoder: numeric and time
payloads within their wire width (automatic for values built from Go's
fixed-width types), strings free of null bytes, and blobs that are nonempty
and below `2^31` bytes. -/
def Argument.wfB : Argument → Bool
  | .boolArg _ => true
  | .nilArg => true
  | .int32Arg v => decide (v < 2 ^ 32)
  | .int64Arg v => decide (v < 2 ^ 64)
  | .float32Arg v => decide (v < 2 ^ 32)
  | .float64Arg v => decide (v < 2 ^ 64)
  | .stringArg s => decide (0 ∉ s)
  | .blobArg b => decide (1 ≤ b.length) && decide (b.length < 2 ^ 31)
  | .timeArg t => decide (t.raw < 2 ^ 64)

theorem marshalArg_tag_ne_zero (a : Argument) : (marshalArg a).1 ≠ 0 := by
  cases a with
  | boolArg b => cases b <;> simp [marshalArg]
  | _ => simp [marshalArg]


theorem marshalTag_boolT : (marshalArg (.boolArg true)).1 = 84 := rfl
theorem marshalTag_boolF : (marshalArg (.boolArg false)).1 = 70 := rfl
theorem marshalTag_nil : (marshalArg .nilArg).1 = 78 := rfl
theorem marshalTag_int32 (v : Nat) : (marshalArg (.int32Arg v)).1 = 105 := rfl
theorem marshalTag_int64 (v : Nat) : (marshalArg (.int64Arg v)).1 = 104 := rfl
theorem marshalTag_float32 (v : Nat) : (marshalArg (.float32Arg v)).1 = 102 := rfl
theorem marshalTag_float64 (v : Nat) : (marshalArg (.float64Arg v)).1 = 100 := rfl
theorem marshalTag_string (s : List Nat) : (marshalArg (.stringArg s)).1 = 115 := rfl
theorem marshalTag_blob (b : List Nat) : (marshalArg (.blobArg b)).1 = 98 := rfl
theorem marshalTag_time (t : Timetag) : (marshalArg (.timeArg t)).1 = 116 := rfl

theorem marshalPayload_boolT : (marshalArg (.boolArg true)).2 = [] := rfl
theorem marshalPayload_boolF : (marshalArg (.boolArg false)).2 = [] := rfl
theorem marshalPayload_nil : (marshalArg .nilArg).2 = [] := rfl
theorem marshalPayload_int32 (v : Nat) : (marshalArg (.int32Arg v)).2 = beBytes 4 v := rfl
theorem marshalPayload_int64 (v : Nat) : (marshalArg (.int64Arg v)).2 = beBytes 8 v := rfl
theorem marshalPayload_float32 (v : Nat) : (marshalArg (.float32Arg v)).2 = beBytes 4 v := rfl
theorem marshalPayload_float64 (v : Nat) : (marshalArg (.float64Arg v)).2 = beBytes 8 v := rfl
theorem marshalPayload_string (s : List Nat) :
    (marshalArg (.stringArg s)).2 = (writePaddedString s).1 := rfl
theorem marshalPayload_blob (b : List Nat) :
    (marshalArg (.blobArg b)).2 = (writeBlob b).1 := rfl
theorem marshalPayload_time (t : Timetag) :
    (marshalArg (.timeArg t)).2 = beBytes 8 t.raw := rfl

theorem processTags_step_i (rest : List Nat) (msg : Message) (input : List Nat)
    (start : Int) :
    processTags (105 :: rest) msg input start =
      if 4 ≤ input.length then
        processTags rest (msg.Append (.int32Arg (beVal (input.take 4))))
          (input.drop 4) (start + 4)
      else .error .eof := rfl

theorem processTags_step_h (rest : List Nat) (msg : Message) (input : List Nat)
    (start : Int) :
    processTags (104 :: rest) msg input start =
      if 8 ≤ input.length then
        processTags rest (msg.Append (.int64Arg (beVal (input.take 8))))
          (input.drop 8) (start + 8)
      else .error .eof := rfl

theorem processTags_step_f (rest : List Nat) (msg : Message) (input : List Nat)
    (start : Int) :
    processTags (102 :: rest) msg input start =
      if 4 ≤ input.length then
        processTags rest (msg.Append (.float32Arg (beVal (input.take 4))))
          (input.drop 4) (start + 4)
      else .error .eof := rfl

theorem processTags_step_d (rest : List Nat) (msg : Message) (input : List Nat)
    (start : Int) :
    processTags (100 :: rest) msg input start =
      if 8 ≤ input.length then
        processTags rest (msg.Append (.float64Arg (beVal (input.take 8))))
          (input.drop 8) (start + 8)
      else .error .eof := rfl

theorem processTags_step_s (rest : List Nat) (msg : Message) (input : List Nat)
    (start : Int) :
    processTags (115 :: rest) msg input start =
      match readPaddedString input with
      | .error e => .error e
      | .ok (s, _n, input1) =>
        processTags rest (msg.Append (.stringArg s)) input1
          (start + s.length + padNat s.length) := rfl

theorem processTags_step_b (rest : List Nat) (msg : Message) (input : List Nat)
    (start : Int) :
    processTags (98 :: rest) msg input start =
      match readBlob input with
      | .error e => .error e
      | .ok (buf, n, input1) =>
        processTags rest (msg.Append (.blobArg buf)) input1 (start + n) := rfl

theorem processTags_step_t (rest : List Nat) (msg : Message) (input : List Nat)
    (start : Int) :
    processTags (116 :: rest) msg input start =
      if 8 ≤ input.length then
        processTags rest (msg.Append (.timeArg ⟨beVal (input.take 8)⟩))
          (input.drop 8) (start + 8)
      else .ok (msg, input, start) := rfl

theorem processTags_step_N (rest : List Nat) (msg : Message) (input : List Nat)
    (start : Int) :
    processTags (78 :: rest) msg input start =
      processTags rest (msg.Append .nilArg) input start := rfl

theorem processTags_step_T (rest : List Nat) (msg : Message) (input : List Nat)
    (start : Int) :
    processTags (84 :: rest) msg input start =
      processTags rest (msg.Append (.boolArg true)) input start := rfl

theorem processTags_step_F (rest : List Nat) (msg : Message) (input : List Nat)
    (start : Int) :
    processTags (70 :: rest) msg input start =
      processTags rest (msg.Append (.boolArg false)) input start := rfl

/-- Decoding the concatenated argument payloads against the derived tag
bytes appends exactly the original arguments (the byte counter advances to
some value, not constrained here; claim C10 settles how it advances). -/
theorem processTags_encode (args : List Argument) (msg : Message)
    (rest : List Nat) (start : Int) (h : args.all Argument.wfB = true) :
    ∃ fin : Int,
      processTags (args.map fun a => (marshalArg a).1) msg
        ((args.map fun a => (marshalArg a).2).flatten ++ rest) start
      = .ok (⟨msg.Address, msg.Arguments ++ args⟩, rest, fin) := by
  induction args generalizing msg rest start with
  | nil => exact ⟨start, by simp [processTags]⟩
  | cons a args ih =>
    rw [List.all_cons, Bool.and_eq_true] at h
    obtain ⟨ha, hargs⟩ := h
    cases a with
    | boolArg b =>
      cases b with
      | true =>
        obtain ⟨fin, hfin⟩ := ih (msg.Append (.boolArg true)) rest start hargs
        refine ⟨fin, ?_⟩
        simp only [List.map_cons, List.flatten_cons, marshalTag_boolT,
          marshalPayload_boolT, List.nil_append, processTags_step_T]
        rw [hfin]
        simp [Message.Append, List.append_assoc]
      | false =>
        obtain ⟨fin, hfin⟩ := ih (msg.Append (.boolArg false)) rest start hargs
        refine ⟨fin, ?_⟩
        simp only [List.map_cons, List.flatten_cons, marshalTag_boolF,
          marshalPayload_boolF, List.nil_append, processTags_step_F]
        rw [hfin]
        simp [Message.Append, List.append_assoc]
    | nilArg =>
      obtain ⟨fin, hfin⟩ := ih (msg.Append .nilArg) rest start hargs
      refine ⟨fin, ?_⟩
      simp only [List.map_cons, List.flatten_cons, marshalTag_nil,
        marshalPayload_nil, List.nil_append, processTags_step_N]
      rw [hfin]
      simp [Message.Append, List.append_assoc]
    | int32Arg v =>
      have hv : v < 2 ^ 32 := of_decide_eq_true ha
      obtain ⟨fin, hfin⟩ := ih (msg.Append (.int32Arg v)) rest (start + 4) hargs
      refine ⟨fin, ?_⟩
      simp only [List.map_cons, List.flatten_cons, marshalTag_int32,
        marshalPayload_int32, List.append_assoc, processTags_step_i]
      have hlen : 4 ≤ (beBytes 4 v ++
          ((args.map fun a => (marshalArg a).2).flatten ++ rest)).length := by
        simp [beBytes_length]
      rw [if_pos hlen, take_exact _ _ _ (beBytes_length 4 v),
        drop_exact _ _ _ (beBytes_length 4 v), beVal_beBytes,
        Nat.mod_eq_of_lt (show v < 256 ^ 4 by norm_num at hv ⊢; omega), hfin]
      simp [Message.Append, List.append_assoc]
    | int64Arg v =>
      have hv : v < 2 ^ 64 := of_decide_eq_true ha
      obtain ⟨fin, hfin⟩ := ih (msg.Append (.int64Arg v)) rest (start + 8) hargs
      refine ⟨fin, ?_⟩
      simp only [List.map_cons, List.flatten_cons, marshalTag_int64,
        marshalPayload_int64, List.append_assoc, processTags_step_h]
      have hlen : 8 ≤ (beBytes 8 v ++
          ((args.map fun a => (marshalArg a).2).flatten ++ rest)).length := by
        simp [beBytes_length]
      rw [if_pos hlen, take_exact _ _ _ (beBytes_length 8 v),
        drop_exact _ _ _ (beBytes_length 8 v), beVal_beBytes,
        Nat.mod_eq_of_lt (show v < 256 ^ 8 by norm_num at hv ⊢; omega), hfin]
      simp [Message.Append, List.append_assoc]
    | float32Arg v =>
      have hv : v < 2 ^ 32 := of_decide_eq_true ha
      obtain ⟨fin, hfin⟩ := ih (msg.Append (.float32Arg v)) rest (start + 4) hargs
      refine ⟨fin, ?_⟩
      simp only [List.map_cons, List.flatten_cons, marshalTag_float32,
        marshalPayload_float32, List.append_assoc, processTags_step_f]
      have hlen : 4 ≤ (beBytes 4 v ++
          ((args.map fun a => (marshalArg a).2).flatten ++ rest)).length := by
        simp [beBytes_length]
      rw [if_pos hlen, take_exact _ _ _ (beBytes_length 4 v),
        drop_exact _ _ _ (beBytes_length 4 v), beVal_beBytes,
        Nat.mod_eq_of_lt (show v < 256 ^ 4 by norm_num at hv ⊢; omega), hfin]
      simp [Message.Append, List.append_assoc]
    | float64Arg v =>
      have hv : v < 2 ^ 64 := of_decide_eq_true ha
      obtain ⟨fin, hfin⟩ := ih (msg.Append (.float64Arg v)) rest (start + 8) hargs
      refine ⟨fin, ?_⟩
      simp only [List.map_cons, List.flatten_cons, marshalTag_float64,
        marshalPayload_float64, List.append_assoc, processTags_step_d]
      have hlen : 8 ≤ (beBytes 8 v ++
          ((args.map fun a => (marshalArg a).2).flatten ++ rest)).length := by
        simp [beBytes_length]
      rw [if_pos hlen, take_exact _ _ _ (beBytes_length 8 v),
        drop_exact _ _ _ (beBytes_length 8 v), beVal_beBytes,
        Nat.mod_eq_of_lt (show v < 256 ^ 8 by norm_num at hv ⊢; omega), hfin]
      simp [Message.Append, List.append_assoc]
    | stringArg s =>
      have hs : 0 ∉ s := of_decide_eq_true ha
      obtain ⟨fin, hfin⟩ := ih (msg.Append (.stringArg s)) rest
        (start + s.length + padNat s.length) hargs
      refine ⟨fin, ?_⟩
      simp only [List.map_cons, List.flatten_cons, marshalTag_string,
        marshalPayload_string, List.append_assoc, processTags_step_s]
      simp only [readPaddedString_write s _ hs]
      rw [hfin]
      simp [Message.Append, List.append_assoc]
    | blobArg b =>
      rw [Argument.wfB, Bool.and_eq_true] at ha
      have hb1 : 1 ≤ b.length := of_decide_eq_true ha.1
      have hb2 : b.length < 2 ^ 31 := of_decide_eq_true ha.2
      obtain ⟨fin, hfin⟩ := ih (msg.Append (.blobArg b)) rest
        (start + (4 + (b.length : Int) + (padNat b.length : Int))) hargs
      refine ⟨fin, ?_⟩
      simp only [List.map_cons, List.flatten_cons, marshalTag_blob,
        marshalPayload_blob, List.append_assoc, processTags_step_b]
      simp only [readBlob_write b _ hb1 hb2]
      rw [hfin]
      simp [Message.Append, List.append_assoc]
    | timeArg t =>
      have hv : t.raw < 2 ^ 64 := of_decide_eq_true ha
      obtain ⟨fin, hfin⟩ := ih (msg.Append (.timeArg t)) rest (start + 8) hargs
      refine ⟨fin, ?_⟩
      simp only [List.map_cons, List.flatten_cons, marshalTag_time,
        marshalPayload_time, List.append_assoc, processTags_step_t]
      have hlen : 8 ≤ (beBytes 8 t.raw ++
          ((args.map fun a => (marshalArg a).2).flatten ++ rest)).length := by
        simp [beBytes_length]
      rw [if_pos hlen, take_exact _ _ _ (beBytes_length 8 t.raw),
        drop_exact _ _ _ (beBytes_length 8 t.raw), beVal_beBytes,
        Nat.mod_eq_of_lt (show t.raw < 256 ^ 8 by norm_num at hv ⊢; omega)]
      rw [show (⟨t.raw⟩ : Timetag) = t from rfl, hfin]
      simp [Message.Append, List.append_assoc]

theorem readPacket_step_msg (f : Nat) (input : List Nat) (start endO : Int)
    (h : input.head? = some 47) :
    readPacket (f + 1) input start endO =
      match readMessage input start with
      | .error e => .error e
      | .ok (m2, rest, st) => .ok (.msg m2, rest, st) := by
  unfold readPacket
  rw [h]
  norm_num

theorem readMessage_encode (addr : List Nat) (args : List Argument)
    (start : Int) (hnull : 0 ∉ addr) (hargs : args.all Argument.wfB = true) :
    ∃ fin : Int,
      readMessage (Message.MarshalBinary ⟨addr, args⟩) start =
        .ok (⟨addr, args⟩, [], fin) := by
  have htags : (0 : Nat) ∉ (44 :: args.map fun a => (marshalArg a).1) := by
    intro hmem
    rcases List.mem_cons.mp hmem with h0 | h0
    · simp at h0
    · rcases List.mem_map.mp h0 with ⟨a, _, hEq⟩
      exact marshalArg_tag_ne_zero a hEq
  have hred :
      readMessage (Message.MarshalBinary ⟨addr, args⟩) start =
        processTags (args.map fun a => (marshalArg a).1) ⟨addr, []⟩
          ((args.map fun a => (marshalArg a).2).flatten)
          (start + (addr.length + 1 + padNat (addr.length + 1) : Nat)
            + ((44 :: args.map fun a => (marshalArg a).1).length + 1
                + padNat ((44 :: args.map fun a => (marshalArg a).1).length + 1) : Nat)) := by
    unfold Message.MarshalBinary readMessage
    dsimp only
    rw [List.append_assoc]
    simp only [readPaddedString_write addr _ hnull]
    unfold readArguments
    simp only [readPaddedString_write _ _ htags]
    norm_num
  obtain ⟨fin, hp⟩ := processTags_encode args ⟨addr, []⟩ []
    (start + (addr.length + 1 + padNat (addr.length + 1) : Nat)
      + ((44 :: args.map fun a => (marshalArg a).1).length + 1
          + padNat ((44 :: args.map fun a => (marshalArg a).1).length + 1) : Nat)) hargs
  rw [List.append_nil] at hp
  refine ⟨fin, ?_⟩
  rw [hred, hp]
  simp

/-- C1 as amended: the round trip holds for every message the decoder can
represent on the wire — address starting with `'/'` (47) and free of null
bytes, string arguments free of null bytes, blob arguments nonempty and
shorter than `2^31` bytes, numeric and time payloads within their wire
width.  Decoding the encoding of such a message yields exactly the message
(Nil and the boolean variants reconstructed from the type tag alone, since
they carry no payload bytes), consuming the whole buffer. -/
theorem C1_roundtrip_amended (m : Message)
    (haddr : m.Address.head? = some 47) (hnull : 0 ∉ m.Address)
    (hargs : m.Arguments.all Argument.wfB = true) :
    ∃ fin : Int, decodePacket m.MarshalBinary = .ok (.msg m, [], fin) := by
  obtain ⟨addr, args⟩ := m
  dsimp only at haddr hnull hargs
  obtain ⟨tl, hA⟩ : ∃ tl, addr = 47 :: tl := by
    cases addr with
    | nil => simp at haddr
    | cons x tl =>
      simp only [List.head?_cons, Option.some.injEq] at haddr
      exact ⟨tl, by rw [haddr]⟩
  obtain ⟨fin, hm⟩ := readMessage_encode addr args 0 hnull hargs
  refine ⟨fin, ?_⟩
  unfold decodePacket
  rw [show (Message.MarshalBinary ⟨addr, args⟩).length + 8
      = ((Message.MarshalBinary ⟨addr, args⟩).length + 7) + 1 from rfl]
  have hhead : (Message.MarshalBinary ⟨addr, args⟩).head? = some 47 := by
    unfold Message.MarshalBinary
    dsimp only
    rw [writePaddedString_of_not_mem addr hnull, hA]
    simp
  rw [readPacket_step_msg _ _ _ _ hhead, hm]

/-- Witness for C1's amended round trip: a message carrying one argument of
every kind. -/
theorem C1_roundtrip_amended_witness :
    ((⟨[47, 97], [.boolArg true, .boolArg false, .nilArg, .int32Arg 5,
        .int64Arg 6, .float32Arg 7, .float64Arg 8, .stringArg [104, 105],
        .blobArg [1, 2, 3], .timeArg ⟨123⟩]⟩ : Message).Address.head? = some 47
      ∧ 0 ∉ (⟨[47, 97], [.boolArg true, .boolArg false, .nilArg, .int32Arg 5,
        .int64Arg 6, .float32Arg 7, .float64Arg 8, .stringArg [104, 105],
        .blobArg [1, 2, 3], .timeArg ⟨123⟩]⟩ : Message).Address)
    ∧ ∃ fin : Int,
      decodePacket (⟨[47, 97], [.boolArg true, .boolArg false, .nilArg,
        .int32Arg 5, .int64Arg 6, .float32Arg 7, .float64Arg 8,
        .stringArg [104, 105], .blobArg [1, 2, 3],
        .timeArg ⟨123⟩]⟩ : Message).MarshalBinary =
        .ok (.msg ⟨[47, 97], [.boolArg true, .boolArg false, .nilArg,
          .int32Arg 5, .int64Arg 6, .float32Arg 7, .float64Arg 8,
          .stringArg [104, 105], .blobArg [1, 2, 3], .timeArg ⟨123⟩]⟩,
          [], fin) :=
  ⟨⟨rfl, by decide⟩,
    C1_roundtrip_amended _ rfl (by decide) (by decide)⟩
